import Mathlib

/-!
Verification of the model-metadata caching layer of the `getllm` repository.

The development shallowly embeds the cache-handling functions of
`models/huggingface.py`, `pyllm/models.py` and
`getllm/scrapers/ollama_scraper.py`.  JSON documents are modelled by the
`Json` type below together with an executable renderer (the embedding of
`json.dump`) and an executable recursive-descent reader (the embedding of
`json.load`).  The renderer prints compactly; the Python code passes
`indent=2`, but no property below depends on the exact spacing of the
serialized text, only on equality between serialized texts, so the
indentation whitespace is omitted.  Numeric fields of the cached records
(download and like counters) are non-negative integers, so JSON numbers
are modelled by `Nat`.
-/

/-- JSON values, as produced by `json.load` / consumed by `json.dump`.
Object fields keep their insertion order, as Python dicts do. -/
inductive Json where
  | null : Json
  | bool (b : Bool) : Json
  | num (n : Nat) : Json
  | str (s : String) : Json
  | arr (items : List Json) : Json
  | obj (fields : List (String × Json)) : Json

/-- The character `{` (written numerically to keep the file ASCII-clean). -/
def lbrace : Char := Char.ofNat 123

/-- The character `}`. -/
def rbrace : Char := Char.ofNat 125

/-- ASCII decimal digit test. -/
def isDig (c : Char) : Bool := '0' ≤ c && c ≤ '9'

/-- JSON whitespace. -/
def isWs (c : Char) : Bool := c = ' ' || c = '\n' || c = '\t' || c = '\r'

/-- Skip leading whitespace. -/
def skipWs (l : List Char) : List Char := l.dropWhile isWs

/-- Decimal digits, most significant first; the fuel drives the
recursion (a number `n` has at most `n + 1` digits), keeping the
definition reducible by the kernel. -/
def natCharsAux : Nat → Nat → List Char
  | 0, _ => []
  | f + 1, n =>
    if n < 10 then [Nat.digitChar n]
    else natCharsAux f (n / 10) ++ [Nat.digitChar (n % 10)]

/-- Decimal digits of a natural number, most significant first. -/
def natChars (n : Nat) : List Char := natCharsAux (n + 1) n

/-- Value of a list of decimal digits. -/
def digitsToNat (l : List Char) : Nat :=
  l.foldl (fun a c => 10 * a + (c.toNat - 48)) 0

/-- Escape the characters that `json.dump` must escape inside a string
literal (the quote and the backslash; `ensure_ascii=False` leaves all
other characters as they are). -/
def escapeChars : List Char → List Char
  | [] => []
  | c :: cs =>
    if c = '"' || c = '\\' then '\\' :: c :: escapeChars cs
    else c :: escapeChars cs

/-- Rendered form of a JSON string literal. -/
def renderStrChars (s : String) : List Char :=
  '"' :: (escapeChars s.data ++ ['"'])

mutual

/-- Serialize a JSON value (the embedding of `json.dump`). -/
def renderVal : Json → List Char
  | Json.null => ['n', 'u', 'l', 'l']
  | Json.bool true => ['t', 'r', 'u', 'e']
  | Json.bool false => ['f', 'a', 'l', 's', 'e']
  | Json.num n => natChars n
  | Json.str s => renderStrChars s
  | Json.arr items => '[' :: (renderItems items ++ [']'])
  | Json.obj fields => lbrace :: (renderFields fields ++ [rbrace])

/-- Serialize the comma-separated element list of an array. -/
def renderItems : List Json → List Char
  | [] => []
  | [v] => renderVal v
  | v :: vs => renderVal v ++ ',' :: renderItems vs

/-- Serialize the comma-separated field list of an object. -/
def renderFields : List (String × Json) → List Char
  | [] => []
  | [(k, v)] => renderStrChars k ++ ':' :: renderVal v
  | (k, v) :: kvs => renderStrChars k ++ ':' :: renderVal v ++ ',' :: renderFields kvs

end


/-- Read the body of a string literal (everything after the opening
quote), returning the unescaped characters and the input after the
closing quote. -/
def parseStrBody : List Char → Option (List Char × List Char)
  | [] => none
  | c :: rest =>
    if c = '"' then some ([], rest)
    else if c = '\\' then
      match rest with
      | [] => none
      | d :: rest2 =>
        match parseStrBody rest2 with
        | none => none
        | some (s, r) => some (d :: s, r)
    else
      match parseStrBody rest with
      | none => none
      | some (s, r) => some (c :: s, r)

mutual

/-- Read one JSON value.  `fuel` bounds the recursion depth; `Json.parse`
supplies a fuel that is always sufficient. -/
def parseVal : Nat → List Char → Option (Json × List Char)
  | 0, _ => none
  | fuel + 1, input =>
    match skipWs input with
    | [] => none
    | c :: rest =>
      if isDig c then
        let ds := (c :: rest).takeWhile isDig
        some (Json.num (digitsToNat ds), (c :: rest).dropWhile isDig)
      else if c = '"' then
        match parseStrBody rest with
        | none => none
        | some (s, r) => some (Json.str (String.mk s), r)
      else if c = '[' then
        match skipWs rest with
        | [] => none
        | d :: r2 =>
          if d = ']' then some (Json.arr [], r2)
          else
            match parseItems fuel (d :: r2) with
            | none => none
            | some (vs, r3) => some (Json.arr vs, r3)
      else if c = lbrace then
        match skipWs rest with
        | [] => none
        | d :: r2 =>
          if d = rbrace then some (Json.obj [], r2)
          else
            match parseFields fuel (d :: r2) with
            | none => none
            | some (fs, r3) => some (Json.obj fs, r3)
      else if c = 't' then
        if rest.take 3 = ['r', 'u', 'e'] then some (Json.bool true, rest.drop 3) else none
      else if c = 'f' then
        if rest.take 4 = ['a', 'l', 's', 'e'] then some (Json.bool false, rest.drop 4) else none
      else if c = 'n' then
        if rest.take 3 = ['u', 'l', 'l'] then some (Json.null, rest.drop 3) else none
      else none

/-- Read the elements of a non-empty array, including the closing `]`. -/
def parseItems : Nat → List Char → Option (List Json × List Char)
  | 0, _ => none
  | fuel + 1, input =>
    match parseVal fuel input with
    | none => none
    | some (v, r) =>
      match skipWs r with
      | [] => none
      | d :: r2 =>
        if d = ',' then
          match parseItems fuel r2 with
          | none => none
          | some (vs, r3) => some (v :: vs, r3)
        else if d = ']' then some ([v], r2)
        else none

/-- Read the fields of a non-empty object, including the closing brace. -/
def parseFields : Nat → List Char → Option (List (String × Json) × List Char)
  | 0, _ => none
  | fuel + 1, input =>
    match skipWs input with
    | [] => none
    | c :: rest =>
      if c = '"' then
        match parseStrBody rest with
        | none => none
        | some (k, r) =>
          match skipWs r with
          | [] => none
          | d :: r2 =>
            if d = ':' then
              match parseVal fuel r2 with
              | none => none
              | some (v, r3) =>
                match skipWs r3 with
                | [] => none
                | e :: r4 =>
                  if e = ',' then
                    match parseFields fuel r4 with
                    | none => none
                    | some (fs, r5) => some ((String.mk k, v) :: fs, r5)
                  else if e = rbrace then some ([(String.mk k, v)], r4)
                  else none
            else none
      else none

end


/-- The embedding of `json.load` applied to a whole document: reads one
value and requires only whitespace to remain; any other input is a parse
error (`json.load` raises, and every caller below catches the error). -/
def Json.parse (s : String) : Option Json :=
  match parseVal (s.length + 1) s.data with
  | none => none
  | some (v, rest) => if skipWs rest = [] then some v else none

/-- `headNotDig l` holds when `l` does not begin with a decimal digit, so
that a numeral rendered immediately before `l` reads back unchanged. -/
def headNotDig : List Char → Prop
  | [] => True
  | c :: _ => isDig c = false

mutual

/-- Parser fuel sufficient for one value (bounded by the length of its
rendering; see `jfuel_le_renderVal_length`). -/
def jfuel : Json → Nat
  | Json.arr items => 1 + jfuelItems items
  | Json.obj fields => 1 + jfuelFields fields
  | _ => 1

/-- Parser fuel sufficient for an array's element list. -/
def jfuelItems : List Json → Nat
  | [] => 0
  | v :: vs => jfuel v + 1 + jfuelItems vs

/-- Parser fuel sufficient for an object's field list. -/
def jfuelFields : List (String × Json) → Nat
  | [] => 0
  | (_, v) :: kvs => jfuel v + 1 + jfuelFields kvs

end

/-- The contents of the three cache files the embedded functions touch:
the Hugging Face models cache (`get_hf_models_cache_path()`), pyllm's
`models.json`, and the scraper cache `ollama_models.json`.  `none` means
the file does not exist.

Modelled from the spec for the path layout: the module
`models/constants.py` that defines `get_hf_models_cache_path` is not
among the sources; per the spec ("one JSON document per source") and the
sibling package `getllm/models` (`models_dir / "huggingface_models.json"`)
the three caches are distinct files, so they appear here as three
independent fields. -/
structure FS where
  hfCache : Option String
  modelsJson : Option String
  ollamaCache : Option String
deriving DecidableEq

/-- Names of the three cache files. -/
inductive CacheFile where
  | hfModels
  | pyllmModels
  | ollamaModels
deriving DecidableEq

/-- Write a whole file slot. -/
def writeFile : CacheFile → Option String → FS → FS
  | CacheFile.hfModels, c, fs => { fs with hfCache := c }
  | CacheFile.pyllmModels, c, fs => { fs with modelsJson := c }
  | CacheFile.ollamaModels, c, fs => { fs with ollamaCache := c }

/-- The on-disk state right after `open(path, "w")`: opening a file for
writing truncates it immediately, before any data is written.  This is
the state a crash (or a concurrent reader) observes between the open and
the completion of the write. -/
def writeBegun (p : CacheFile) (fs : FS) : FS := writeFile p (some "") fs

/-- The on-disk state after the write completes. -/
def writeDone (p : CacheFile) (content : String) (fs : FS) : FS :=
  writeFile p (some content) fs

/-- `open(path, "w"); f.write(content)`: truncate, then write.  The
composition passes through the truncated state `writeBegun`. -/
def pyWriteText (p : CacheFile) (content : String) (fs : FS) : FS :=
  writeDone p content (writeBegun p fs)

/-- A normalized Hugging Face model record, with exactly the fields the
dictionaries built in `models/huggingface.py` carry.  `size` is present
only on records built by the web-scraping path. -/
structure HFModel where
  id : String
  name : String
  author : String
  description : String
  downloads : Nat
  likes : Nat
  tags : List String
  size : Option String
deriving DecidableEq

/-- Python's `s.split('/')[-1]`: the segment after the last slash. -/
def lastSeg (s : String) : String :=
  String.mk (s.data.foldl (fun acc c => if c = '/' then [] else acc ++ [c]) [])

/-- Python's `str.lower` (the cached data is ASCII, on which
`Char.toLower` and Python agree). -/
def lowerStr (s : String) : String := String.mk (s.data.map Char.toLower)

/-- Python's `str.upper` on ASCII. -/
def upperStr (s : String) : String := String.mk (s.data.map Char.toUpper)

/-- Python's whitespace test for `str.strip`. -/
def pyIsSpace (c : Char) : Bool :=
  c = ' ' || c = '\n' || c = '\t' || c = '\r' || c = '\x0b' || c = '\x0c'

/-- Python's `str.strip()`. -/
def pyStrip (s : String) : String :=
  String.mk (((s.data.dropWhile pyIsSpace).reverse.dropWhile pyIsSpace).reverse)

/-- `needle` occurs as a contiguous run inside `hay`
(Python's `needle in hay`). -/
def isInfixOfChars : List Char → List Char → Bool
  | n, [] => n.isEmpty
  | n, c :: rest => n.isPrefixOf (c :: rest) || isInfixOfChars n rest

/-- Python's `needle in hay` on strings. -/
def pyIn (needle hay : String) : Bool := isInfixOfChars needle.data hay.data

/-- Digits prefix. -/
def takeDigs (l : List Char) : List Char := l.takeWhile isDig

/-- Input after the digits prefix. -/
def dropDigs (l : List Char) : List Char := l.dropWhile isDig

/-- One attempt, at the start of `l`, of the regex
`(\d+\.?\d*)(u)` used by `extract_model_size` (with `u` the unit
letter): greedy digits, optionally a dot and more greedy digits, then
the unit.  Returns the first capture group on success.  Backtracking
cannot rescue a failed greedy attempt for this pattern, so the greedy
reading is exact. -/
def matchSizeHFAt (unit : Char) (l : List Char) : Option (List Char) :=
  let d1 := takeDigs l
  if d1.isEmpty then none
  else
    match dropDigs l with
    | [] => none
    | c :: rest1 =>
      if c = unit then some d1
      else if c = '.' then
        let d2 := takeDigs rest1
        match dropDigs rest1 with
        | [] => none
        | e :: _ => if e = unit then some (d1 ++ '.' :: d2) else none
      else none

/-- `re.search` for the size pattern: the match at the leftmost position
where one exists. -/
def reSearchSize (unit : Char) : List Char → Option (List Char)
  | [] => none
  | c :: rest =>
    match matchSizeHFAt unit (c :: rest) with
    | some g => some g
    | none => reSearchSize unit rest

/-- The fixed token list `size_patterns` of `extract_model_size`. -/
def size_patterns : List String :=
  ["7b", "13b", "20b", "65b", "70b", "1.1b", "3b", "6b", "12b"]

/-- The embedding of `extract_model_size` (`models/huggingface.py`).
It consults the lower-cased `name`, the tag list and the `id` only —
never the description and never an explicit size field — and returns
the string `"Unknown"` when nothing matches.  On the lower-cased name
the alternative `(b|B)` of the regex can only match `b`, so the unit is
fixed and its `.upper()` is the literal `B` (likewise `M`). -/
def extract_model_size (m : HFModel) : String :=
  let name := (lowerStr m.name).data
  let tags := (m.tags.filter (fun t => t ≠ "")).map (fun t => (lowerStr t).data)
  match reSearchSize 'b' name with
  | some g => String.mk (g ++ ['B'])
  | none =>
    match reSearchSize 'm' name with
    | some g => String.mk (g ++ ['M'])
    | none =>
      match size_patterns.find? (fun p =>
          tags.any (fun t => isInfixOfChars p.data t) || isInfixOfChars p.data name) with
      | some p => upperStr p
      | none =>
        let model_id := (lowerStr m.id).data
        match size_patterns.find? (fun p => isInfixOfChars p.data model_id) with
        | some p => upperStr p
        | none => "Unknown"

/-- The JSON object a model dictionary serializes to.  Key order is the
dictionary insertion order of the Python code: the API path inserts
`id, name, author, description, downloads, likes, tags` (and never a
size), the web path inserts `id, name, author, description, tags,
downloads, likes` and then adds `size`. -/
def hfModelToJson (m : HFModel) : Json :=
  match m.size with
  | none =>
    Json.obj [("id", Json.str m.id), ("name", Json.str m.name),
      ("author", Json.str m.author), ("description", Json.str m.description),
      ("downloads", Json.num m.downloads), ("likes", Json.num m.likes),
      ("tags", Json.arr (m.tags.map Json.str))]
  | some sz =>
    Json.obj [("id", Json.str m.id), ("name", Json.str m.name),
      ("author", Json.str m.author), ("description", Json.str m.description),
      ("tags", Json.arr (m.tags.map Json.str)),
      ("downloads", Json.num m.downloads), ("likes", Json.num m.likes),
      ("size", Json.str sz)]

/-- Serialized text of a Hugging Face model list, as written by
`json.dump(models, f, indent=2, ensure_ascii=False)`. -/
def renderModels (ms : List HFModel) : String :=
  String.mk (renderVal (Json.arr (ms.map hfModelToJson)))

/-- A raw record of the Hugging Face `/api/models` response (the fields
`fetch_from_api` reads). -/
structure RawApiModel where
  modelId : String
  author : String
  description : String
  downloads : Nat
  likes : Nat
  tags : List String
deriving DecidableEq

/-- Normalization applied by `fetch_from_api` to one API record. -/
def apiToModel (m : RawApiModel) : HFModel :=
  { id := m.modelId
    name := lastSeg m.modelId
    author := m.author
    description := m.description
    downloads := m.downloads
    likes := m.likes
    tags := m.tags ++ (if m.tags.contains "gguf" then [] else ["gguf"])
    size := none }

/-- The embedding of the inner `fetch_from_api`: its input is the
outcome of the HTTP request (`Except.error` when `requests` raised). -/
def fetch_from_api (a : Except String (List RawApiModel)) : Bool × String × List HFModel :=
  match a with
  | Except.error e => (false, "API request failed: " ++ e, [])
  | Except.ok ms =>
    (true, "Fetched " ++ Nat.repr ms.length ++ " models from API", ms.map apiToModel)

/-- The per-model API response used by the web-scraping path. -/
structure RawWebModel where
  modelId : String
  author : String
  description : String
  tags : List String
  downloads : Nat
  likes : Nat
deriving DecidableEq

/-- Outcome of processing one model card in `fetch_from_web`: the card
markup could not be parsed (`bad`, skipped by the inner handler), or the
card yielded an id and the follow-up model request returned either a
non-200 status (`none`) or a JSON body. -/
inductive CardOutcome where
  | bad : CardOutcome
  | fetched (cardId : String) (resp : Option RawWebModel) : CardOutcome
deriving DecidableEq

/-- The record `fetch_from_web` builds for one card (including the size
field it adds by calling `extract_model_size` on the record). -/
def cardModel : CardOutcome → Option HFModel
  | CardOutcome.bad => none
  | CardOutcome.fetched _ none => none
  | CardOutcome.fetched cardId (some d) =>
    let m0 : HFModel :=
      { id := cardId
        name := lastSeg d.modelId
        author := d.author
        description := d.description
        downloads := d.downloads
        likes := d.likes
        tags := d.tags
        size := none }
    some { m0 with size := some (extract_model_size m0) }

/-- The embedding of the inner `fetch_from_web`. -/
def fetch_from_web (limit : Nat) (w : Except String (List CardOutcome)) :
    Bool × String × List HFModel :=
  match w with
  | Except.error e => (false, "Web scraping failed: " ++ e, [])
  | Except.ok cards =>
    let models := (cards.take limit).filterMap cardModel
    if models.isEmpty then (false, "No models found on Hugging Face", [])
    else (true, "Fetched " ++ Nat.repr models.length ++ " models from web", models)

/-- `fetch_from_api`, falling back to `fetch_from_web` when the API call
failed or returned no models — the selection made by the main body of
`update_huggingface_models_cache`. -/
def hfSelected (limit : Nat) (a : Except String (List RawApiModel))
    (w : Except String (List CardOutcome)) : Bool × String × List HFModel :=
  let r1 := fetch_from_api a
  if !r1.1 || r1.2.2.isEmpty then fetch_from_web limit w else r1

/-- The embedding of `update_huggingface_models_cache`
(`models/huggingface.py`).  The cache write is the in-place
truncate-then-write of `open(path, "w")`; an `IOError` during the write
and an exception in `os.makedirs` are not modelled (the write succeeds
here). -/
def update_huggingface_models_cache (limit : Nat)
    (a : Except String (List RawApiModel)) (w : Except String (List CardOutcome))
    (fs : FS) : FS × Bool × String :=
  let r := hfSelected limit a w
  if !r.2.2.isEmpty then
    (pyWriteText CacheFile.hfModels (renderModels r.2.2) fs,
      true, "Successfully updated " ++ Nat.repr r.2.2.length ++ " models in cache")
  else
    (fs, r.1, if r.2.1 = "" then "No models found" else r.2.1)

/-- Last value of a key in a JSON object (Python dicts built by
`json.load` keep the last duplicate; the objects written by this code
have no duplicate keys). -/
def jGet (kvs : List (String × Json)) (k : String) : Option Json :=
  (kvs.reverse.find? (fun kv => kv.1 = k)).map (fun kv => kv.2)

/-- Read a JSON value as a string, with the default the later readers
(`model.get(key, '')`) use for a missing value. -/
def jStrD (v : Json) (d : String) : String :=
  match v with
  | Json.str s => s
  | _ => d

/-- Read a JSON value as a number with a default. -/
def jNatD (v : Json) (d : Nat) : Nat :=
  match v with
  | Json.num n => n
  | _ => d

/-- One pass of the validation loop of
`load_huggingface_models_from_cache`: skip anything that is not an
object, skip entries whose `id` is missing or falsy, replace a missing
or falsy `name` by the last segment of the id, and default `tags` to
`[]`.  The entry is normalised to the `HFModel` record shape; fields
whose JSON value does not have the record's type are read with the same
defaults the later consumers (`model.get(key, default)`) apply.  Every
cache file this repository writes has string/number/string-list typed
fields, on which this normalisation is the identity. -/
def entryToModel : Json → Option HFModel
  | Json.obj kvs =>
    (match jGet kvs "id" with
    | some (Json.str i) =>
      if i = "" then none
      else
        let name := match jGet kvs "name" with
          | some (Json.str n) => if n = "" then lastSeg i else n
          | _ => lastSeg i
        let tags := match jGet kvs "tags" with
          | some (Json.arr ts) => ts.map (fun t => jStrD t "")
          | _ => []
        some { id := i
               name := name
               author := jStrD ((jGet kvs "author").getD Json.null) ""
               description := jStrD ((jGet kvs "description").getD Json.null) ""
               downloads := jNatD ((jGet kvs "downloads").getD Json.null) 0
               likes := jNatD ((jGet kvs "likes").getD Json.null) 0
               tags := tags
               size := match jGet kvs "size" with
                 | some (Json.str s) => some s
                 | _ => none }
    | _ => none)
  | _ => none

/-- The embedding of `load_huggingface_models_from_cache`
(`models/huggingface.py`): no file, an unreadable file, or a document
that is not a list gives `[]`; a list is filtered through the validation
loop. -/
def load_huggingface_models_from_cache (fs : FS) : List HFModel :=
  match fs.hfCache with
  | none => []
  | some content =>
    match Json.parse content with
    | none => []
    | some (Json.arr items) => items.filterMap entryToModel
    | some _ => []

/-- The filter block of `search_huggingface_models` applied to one
model: the lower-cased query occurs in the lower-cased `id`, `name`,
`description`, or any tag. -/
def hfModelMatches (q : String) (m : HFModel) : Bool :=
  pyIn (lowerStr q) (lowerStr m.id) || pyIn (lowerStr q) (lowerStr m.name) ||
    pyIn (lowerStr q) (lowerStr m.description) ||
    m.tags.any (fun t => pyIn (lowerStr q) (lowerStr t))

/-- The filter loop of `search_huggingface_models` (lines 60-72 of
`models/huggingface.py`): keep, in order, the models matching the
query. -/
def filterModels (q : String) (ms : List HFModel) : List HFModel :=
  ms.filter (hfModelMatches q)

/-- Python truthiness of the optional query (`if query:`). -/
def pyTruthy (q : Option String) : Bool :=
  match q with
  | none => false
  | some s => s ≠ ""

/-- The model list the body of `search_huggingface_models` works on:
run the cache update with the hard-coded `limit=50`, reload from the
cache, and if the update failed and the cache is empty fall back to the
built-in default list. -/
def searchLoaded (defaults : List HFModel) (a : Except String (List RawApiModel))
    (w : Except String (List CardOutcome)) (fs : FS) : List HFModel :=
  let r := update_huggingface_models_cache 50 a w fs
  if !r.2.1 then
    let ms := load_huggingface_models_from_cache r.1
    if ms.isEmpty then defaults else ms
  else load_huggingface_models_from_cache r.1

/-- The fallback expression of the `except` handler of
`search_huggingface_models`: the default models whose name or
description contains the query (all of them when the query is falsy),
with no truncation. -/
def searchFallback (defaults : List HFModel) (query : Option String) : List HFModel :=
  defaults.filter (fun m =>
    !pyTruthy query || pyIn (lowerStr (query.getD "")) (lowerStr m.name) ||
      pyIn (lowerStr (query.getD "")) (lowerStr m.description))

/-- The embedding of `search_huggingface_models`
(`models/huggingface.py`).  `DEFAULT_HF_MODELS` is imported from
`models/constants.py`, which is not among the sources, so the default
list is a parameter.  `raised` is true when an exception escapes the
`try` body (the code catches every exception and answers with the
fallback list); otherwise the result is the filtered model list
truncated to `limit`. -/
def search_huggingface_models (defaults : List HFModel) (raised : Bool)
    (a : Except String (List RawApiModel)) (w : Except String (List CardOutcome))
    (query : Option String) (limit : Nat) (fs : FS) : List HFModel :=
  if raised then searchFallback defaults query
  else
    let ms := searchLoaded defaults a w fs
    let ms := if pyTruthy query then filterModels (query.getD "") ms else ms
    ms.take limit

/-- A pyllm model record (`pyllm/models.py`), with the keys `name`,
`size`, `desc` in their insertion order. -/
structure PModel where
  name : String
  size : String
  desc : String
deriving DecidableEq

/-- The built-in `DEFAULT_MODELS` list of `pyllm/models.py`. -/
def DEFAULT_MODELS : List PModel :=
  [⟨"tinyllama:1.1b", "1.1B", "TinyLlama 1.1B - szybki, mały model"⟩,
   ⟨"codellama:7b", "7B", "CodeLlama 7B - kodowanie, Meta"⟩,
   ⟨"wizardcoder:7b-python", "7B", "WizardCoder 7B Python"⟩,
   ⟨"deepseek-coder:6.7b", "6.7B", "Deepseek Coder 6.7B"⟩,
   ⟨"codegemma:2b", "2B", "CodeGemma 2B - Google"⟩,
   ⟨"phi:2.7b", "2.7B", "Microsoft Phi-2 2.7B"⟩,
   ⟨"stablelm-zephyr:3b", "3B", "StableLM Zephyr 3B"⟩,
   ⟨"mistral:7b", "7B", "Mistral 7B"⟩,
   ⟨"qwen:7b", "7B", "Qwen 7B"⟩,
   ⟨"gemma:7b", "7B", "Gemma 7B"⟩,
   ⟨"gemma:2b", "2B", "Gemma 2B"⟩]

/-- The JSON object of one pyllm record. -/
def pModelToJson (m : PModel) : Json :=
  Json.obj [("name", Json.str m.name), ("size", Json.str m.size), ("desc", Json.str m.desc)]

/-- The JSON document of a pyllm model list. -/
def pModelsToJson (ms : List PModel) : Json := Json.arr (ms.map pModelToJson)

/-- Serialized text of a pyllm model list, as `json.dumps(models,
ensure_ascii=False, indent=2)` produces it. -/
def renderPModels (ms : List PModel) : String := String.mk (renderVal (pModelsToJson ms))

/-- The embedding of `save_models_to_json` (`pyllm/models.py`): an
in-place `open(file_path, "w")` followed by one write of the serialized
text — truncation first, data afterwards, no temporary file and no
rename. -/
def save_models_to_json (models : List PModel) (fs : FS) : FS :=
  pyWriteText CacheFile.pyllmModels (renderPModels models) fs

/-- `DEFAULT_MODELS` as the JSON value `load_models_from_json` answers
with. -/
def defaultModelsJson : Json := pModelsToJson DEFAULT_MODELS

/-- The embedding of `load_models_from_json` (`pyllm/models.py`): the
parsed document when the file exists and parses (whatever its shape),
and the built-in `DEFAULT_MODELS` when the file is missing or
`json.load` raises. -/
def load_models_from_json (fs : FS) : Json :=
  match fs.modelsJson with
  | none => defaultModelsJson
  | some content =>
    match Json.parse content with
    | some j => j
    | none => defaultModelsJson

/-- One `<h2>` heading of the scraped Ollama library page together with
the text of its following `<p>` sibling, the input of the parsing loop
of `update_models_from_ollama`. -/
structure H2Block where
  text : String
  nextP : Option String
deriving DecidableEq

/-- One attempt, at the start of `l`, of the `findall` pattern
`(\d+(?:\.\d+)?)([bm])`: greedy digits, optionally a dot followed by at
least one digit, then the unit.  Returns the two groups and the input
after the match. -/
def matchNumUnitAt (l : List Char) : Option (List Char × Char × List Char) :=
  let d1 := takeDigs l
  if d1.isEmpty then none
  else
    match dropDigs l with
    | [] => none
    | c :: rest1 =>
      if c = 'b' || c = 'm' then some (d1, c, rest1)
      else if c = '.' then
        let d2 := takeDigs rest1
        if d2.isEmpty then none
        else
          match dropDigs rest1 with
          | [] => none
          | e :: rest2 =>
            if e = 'b' || e = 'm' then some (d1 ++ '.' :: d2, e, rest2) else none
      else none

/-- `re.findall` for the size pattern: all non-overlapping matches,
scanning left to right and resuming after each match.  The fuel is the
input length, which bounds the number of scanning steps. -/
def findallSizesAux : Nat → List Char → List (List Char × Char)
  | 0, _ => []
  | _ + 1, [] => []
  | f + 1, c :: rest =>
    match matchNumUnitAt (c :: rest) with
    | some (g, u, rem) => (g, u) :: findallSizesAux f rem
    | none => findallSizesAux f rest

/-- All size-pattern matches of the input. -/
def findallSizes (l : List Char) : List (List Char × Char) := findallSizesAux l.length l

/-- `float(num) <= 7` for a decimal numeral captured by the size
pattern, computed exactly on the decimal representation (no rounding
occurs for the short numerals the pattern yields). -/
def decimalLe7 (g : List Char) : Bool :=
  let ip := takeDigs g
  let frac := match dropDigs g with
    | [] => []
    | _ :: r => takeDigs r
  let n := digitsToNat ip
  n < 7 || (n = 7 && frac.all (fun c => c = '0'))

/-- Python's `f"{float(num)}B"` number part for a decimal numeral
`num`: `float` parses the numeral and its repr prints the shortest
decimal, which for the short numerals captured here is the numeral with
leading zeros removed, trailing fractional zeros removed, and a
mandatory single fractional digit (`"7"` prints as `7.0`, `"6.70"` as
`6.7`). -/
def pyFloatRepr (g : List Char) : List Char :=
  let ip := match (takeDigs g).dropWhile (fun c => c = '0') with
    | [] => ['0']
    | r => r
  let frac := match dropDigs g with
    | [] => []
    | _ :: r => ((takeDigs r).reverse.dropWhile (fun c => c = '0')).reverse
  if frac.isEmpty then ip ++ ['.', '0'] else ip ++ '.' :: frac

/-- The hard-coded keyword list of the coding-model heuristic. -/
def codingKeywords : List String :=
  ["code", "coder", "llama", "phi", "gemma", "deepseek", "smollm", "stablelm",
   "tinyllama", "exaone", "wizard"]

/-- The per-heading work of `update_models_from_ollama`: lower-case and
strip the heading, take the description text, run the size `findall`
over description-plus-name, keep the `b`-unit sizes at most 7, and keep
the block only when the name contains a coding keyword and a size was
found.  Returns `(name, desc, sizes)`. -/
def processH2 (h : H2Block) : Option (String × String × List (List Char)) :=
  let name := lowerStr (pyStrip h.text)
  let descText := pyStrip (h.nextP.getD "")
  let sizes := (findallSizes (descText.data ++ name.data)).filterMap
    (fun gu => if gu.2 = 'b' && decimalLe7 gu.1 then some gu.1 else none)
  if codingKeywords.any (fun kw => pyIn kw name) then
    if sizes.isEmpty then none else some (name, descText, sizes)
  else none

/-- The default `MODELS_JSON_PATH` (`get_models_dir()` falls back to
`./models` when no `.env` sets `MODELS_DIR`); only quoted in the
printed success message. -/
def MODELS_JSON_PATH : String := "./models/models.json"

/-- Result of running one embedded Python procedure: the file-system
state, the value returned to the caller, and the lines printed to
stdout. -/
structure PyOut (α : Type) where
  fs : FS
  ret : α
  printed : List String
deriving DecidableEq

/-- The embedding of `update_models_from_ollama` (`pyllm/models.py`).
Its input is the outcome of fetching and parsing the library page:
`Except.error` when `requests.get` (or anything else in the `try` body
before the loop) raised, otherwise the `<h2>` blocks found.  The Python
function returns `None` on every path — hence `ret : Unit` — and
reports both success and failure only through `print`.
`ollamaModelsList` is the `models_list` the loop builds: one record per
(block, size) pair, with the size formatted as `f"{float(num)}B"`. -/
def ollamaModelsList (h2s : List H2Block) : List PModel :=
  (h2s.filterMap processH2).flatMap (fun b =>
    b.2.2.map (fun sz => PModel.mk b.1 (String.mk (pyFloatRepr sz ++ ['B'])) b.2.1))

/-- The embedding of `update_models_from_ollama` (`pyllm/models.py`),
continued: dispatch on the fetch outcome and the parsed blocks. -/
def update_models_from_ollama (resp : Except String (List H2Block)) (fs : FS) :
    PyOut Unit :=
  match resp with
  | Except.error e => ⟨fs, (), ["Error updating from ollama.com: " ++ e]⟩
  | Except.ok h2s =>
    let blocks := h2s.filterMap processH2
    if blocks.isEmpty then ⟨fs, (), ["No models found to update."]⟩
    else
      ⟨save_models_to_json (ollamaModelsList h2s) fs, (),
        ["Models updated from Ollama and saved to " ++ MODELS_JSON_PATH]⟩

/-- The embedding of `update_ollama_models_cache`
(`getllm/scrapers/ollama_scraper.py`): its input is the outcome of the
Selenium scrape (`get_models`), a list of metadata dictionaries; on
success the list is dumped to the `ollama_models.json` cache and `True`
is returned, on any exception `False`. -/
def update_ollama_models_cache (scraped : Except String (List Json)) (fs : FS) :
    FS × Bool :=
  match scraped with
  | Except.error _ => (fs, false)
  | Except.ok models =>
    (pyWriteText CacheFile.ollamaModels (String.mk (renderVal (Json.arr models))) fs, true)

/-- Strict lexicographic comparison of character lists (the order the
spec prescribes for `display_name`). -/
def charListLt : List Char → List Char → Bool
  | [], [] => false
  | [], _ :: _ => true
  | _ :: _, [] => false
  | a :: as, b :: bs => if a < b then true else if b < a then false else charListLt as bs

/-- "`a` precedes `b`": `display_name` ascending, ties broken by `id`
— the order the spec claims the list operation produces. -/
def modelPairLe (a b : HFModel) : Prop :=
  charListLt a.name.data b.name.data = true ∨
    (a.name = b.name ∧ (charListLt a.id.data b.id.data = true ∨ a.id = b.id))

instance : DecidableRel modelPairLe := fun a b =>
  inferInstanceAs (Decidable (charListLt a.name.data b.name.data = true ∨
    (a.name = b.name ∧ (charListLt a.id.data b.id.data = true ∨ a.id = b.id))))

/-- The sequence is sorted by `display_name` ascending with ties broken
by `id`. -/
def displayOrdered (ms : List HFModel) : Prop := List.Chain' modelPairLe ms

instance displayOrderedDec : ∀ ms : List HFModel, Decidable (displayOrdered ms)
  | [] => isTrue trivial
  | [_] => isTrue List.Chain.nil
  | a :: b :: rest =>
    haveI : Decidable (displayOrdered (b :: rest)) := displayOrderedDec (b :: rest)
    decidable_of_iff (modelPairLe a b ∧ displayOrdered (b :: rest)) List.chain'_cons.symm

/-- A remote-fetch outcome in which the HTTP request raised. -/
def failApi : Except String (List RawApiModel) := Except.error "unreachable"

/-- A web-scrape outcome in which the HTTP request raised. -/
def failWeb : Except String (List CardOutcome) := Except.error "unreachable"

/-- No cache file exists. -/
def emptyFS : FS := ⟨none, none, none⟩

/-- The query occurs, case-insensitively, inside the field. -/
def occursCI (q field : String) : Prop := (lowerStr q).data <:+: (lowerStr field).data

/-- A cached record whose display name sorts late. -/
def zetaM : HFModel := ⟨"s/z", "zeta", "", "", 0, 0, [], none⟩

/-- A cached record whose display name sorts early. -/
def alphaM : HFModel := ⟨"s/a", "alpha", "", "", 0, 0, [], none⟩

/-- A cache holding `zeta` before `alpha`. -/
def fsZA : FS := ⟨some (renderModels [zetaM, alphaM]), none, none⟩

/-- A scraped page yielding one coding model block. -/
def okH2 : Except String (List H2Block) := Except.ok [⟨"codellama", some "CodeLlama 7b"⟩]

/-- A fetch of the Ollama library page that raised. -/
def errH2 : Except String (List H2Block) := Except.error "boom"

/-- A models.json holding the default catalog. -/
def fsP0 : FS := ⟨none, some (renderPModels DEFAULT_MODELS), none⟩

/-- The new upstream value of record B. -/
def recBprime : RawApiModel := ⟨"s/b", "au2", "v2prime", 7, 0, ["gguf"]⟩

/-- A record C that did not exist in the old catalog. -/
def recC : RawApiModel := ⟨"s/c", "au3", "v3", 2, 0, ["gguf"]⟩

/-- An API response whose batch is exactly `B:v2', C:v3`. -/
def okApiBC : Except String (List RawApiModel) := Except.ok [recBprime, recC]

/-- The old record A, present only in the old catalog. -/
def mA : HFModel := ⟨"s/a", "a", "", "v1", 1, 0, [], none⟩

/-- The old record B. -/
def mB : HFModel := ⟨"s/b", "b", "", "v2", 1, 0, [], none⟩

/-- A prior catalog holding exactly `A:v1, B:v2`. -/
def fsAB : FS := ⟨some (renderModels [mA, mB]), none, none⟩

/-- A concrete pyllm record. -/
def pmX : PModel := ⟨"codellama:7b", "7B", "CodeLlama"⟩

/-- A models.json holding exactly `[pmX]`. -/
def fsPX : FS := ⟨none, some (renderPModels [pmX]), none⟩

/-- The record whose display name contains the size pattern of the
spec's example. -/
def mCode : HFModel :=
  ⟨"codellama/CodeLlama-7b-Instruct", "CodeLlama-7b-Instruct", "", "", 0, 0, [], none⟩

/-- A record carrying a size only in its description. -/
def mDescOnly : HFModel := ⟨"mistral", "mistral", "", "a 7B model", 0, 0, [], none⟩

/-- A record with no size pattern anywhere. -/
def mNoSize : HFModel := ⟨"gpt", "gpt", "", "", 0, 0, ["nlp"], none⟩


theorem skipWs_cons_of_not_ws {c : Char} (l : List Char) (h : isWs c = false) :
    skipWs (c :: l) = c :: l := by
  simp [skipWs, List.dropWhile, h]

theorem digitChar_isDig {d : Nat} (h : d < 10) : isDig (Nat.digitChar d) = true := by
  interval_cases d <;> decide

theorem digitChar_toNat {d : Nat} (h : d < 10) : (Nat.digitChar d).toNat = 48 + d := by
  interval_cases d <;> decide

theorem natCharsAux_congr (n : Nat) : ∀ f1 f2, n < f1 → n < f2 →
    natCharsAux f1 n = natCharsAux f2 n := by
  induction n using Nat.strong_induction_on with
  | _ n ih =>
    intro f1 f2 h1 h2
    obtain ⟨g1, rfl⟩ : ∃ g, f1 = g + 1 := ⟨f1 - 1, by omega⟩
    obtain ⟨g2, rfl⟩ : ∃ g, f2 = g + 1 := ⟨f2 - 1, by omega⟩
    simp only [natCharsAux]
    by_cases h : n < 10
    · simp [h]
    · simp only [if_neg h]
      rw [ih (n / 10) (Nat.div_lt_self (by omega) (by omega)) g1 g2 (by omega) (by omega)]

theorem natChars_lt {n : Nat} (h : n < 10) : natChars n = [Nat.digitChar n] := by
  unfold natChars
  simp [natCharsAux, h]

theorem natChars_ge {n : Nat} (h : ¬ n < 10) :
    natChars n = natChars (n / 10) ++ [Nat.digitChar (n % 10)] := by
  show natCharsAux (n + 1) n = natCharsAux (n / 10 + 1) (n / 10) ++ [Nat.digitChar (n % 10)]
  rw [show natCharsAux (n + 1) n =
      (if n < 10 then [Nat.digitChar n]
       else natCharsAux n (n / 10) ++ [Nat.digitChar (n % 10)]) from rfl]
  rw [if_neg h]
  rw [natCharsAux_congr (n / 10) n (n / 10 + 1) (by omega) (by omega)]

theorem natChars_digits (n : Nat) : ∀ c ∈ natChars n, isDig c = true := by
  induction n using Nat.strong_induction_on with
  | _ n ih =>
    by_cases h : n < 10
    · rw [natChars_lt h]
      intro c hc
      rw [List.mem_singleton] at hc
      subst hc
      exact digitChar_isDig h
    · rw [natChars_ge h]
      intro c hc
      rcases List.mem_append.1 hc with h1 | h2
      · exact ih (n / 10) (Nat.div_lt_self (by omega) (by omega)) c h1
      · rw [List.mem_singleton] at h2
        subst h2
        exact digitChar_isDig (Nat.mod_lt _ (by omega))

theorem natChars_ne_nil (n : Nat) : natChars n ≠ [] := by
  by_cases h : n < 10
  · rw [natChars_lt h]; simp
  · rw [natChars_ge h]; simp

theorem digitsToNat_natChars (n : Nat) : digitsToNat (natChars n) = n := by
  induction n using Nat.strong_induction_on with
  | _ n ih =>
    by_cases h : n < 10
    · rw [natChars_lt h]
      simp [digitsToNat, List.foldl, digitChar_toNat h]
    · rw [natChars_ge h]
      have := ih (n / 10) (Nat.div_lt_self (by omega) (by omega))
      simp only [digitsToNat, List.foldl_append, List.foldl] at this ⊢
      rw [this, digitChar_toNat (Nat.mod_lt _ (by omega))]
      omega

theorem takeWhile_digits_append {ds rest : List Char}
    (h1 : ∀ c ∈ ds, isDig c = true) (h2 : headNotDig rest) :
    (ds ++ rest).takeWhile isDig = ds ∧ (ds ++ rest).dropWhile isDig = rest := by
  induction ds with
  | nil =>
    cases rest with
    | nil => simp
    | cons c l =>
      simp only [headNotDig] at h2
      simp [List.takeWhile, List.dropWhile, h2]
  | cons d ds ih =>
    have hd : isDig d = true := h1 d (List.mem_cons_self _ _)
    have ih' := ih (fun c hc => h1 c (List.mem_cons_of_mem _ hc))
    simp [List.takeWhile, List.dropWhile, hd, ih'.1, ih'.2]

theorem parseStrBody_escape (s rest : List Char) :
    parseStrBody (escapeChars s ++ '"' :: rest) = some (s, rest) := by
  induction s with
  | nil =>
    simp only [escapeChars, List.nil_append]
    unfold parseStrBody
    simp
  | cons c cs ih =>
    by_cases h : c = '"' || c = '\\'
    · simp only [escapeChars, h, if_pos, List.cons_append]
      unfold parseStrBody
      have hbs : ('\\' : Char) ≠ '"' := by decide
      simp [hbs, ih]
    · have h1 : c ≠ '"' := by
        intro hc; subst hc; simp at h
      have h2 : c ≠ '\\' := by
        intro hc; subst hc; simp at h
      simp only [escapeChars, h, if_neg, Bool.not_eq_true, List.cons_append]
      unfold parseStrBody
      simp [h1, h2, ih]

theorem isDig_not_special {c : Char} (h : isDig c = true) :
    isWs c = false ∧ c ≠ ']' ∧ c ≠ rbrace ∧ c ≠ ',' ∧ c ≠ ':' := by
  refine ⟨?_, ?_, ?_, ?_, ?_⟩
  · by_contra hw
    rw [Bool.not_eq_false] at hw
    simp only [isWs, Bool.or_eq_true, decide_eq_true_eq] at hw
    rcases hw with ((h1 | h1) | h1) | h1 <;> (subst h1; exact absurd h (by decide))
  · intro h1; subst h1; exact absurd h (by decide)
  · intro h1; subst h1; exact absurd h (by decide)
  · intro h1; subst h1; exact absurd h (by decide)
  · intro h1; subst h1; exact absurd h (by decide)

theorem natChars_cons (n : Nat) :
    ∃ c l, natChars n = c :: l ∧ isDig c = true := by
  cases hn : natChars n with
  | nil => exact absurd hn (natChars_ne_nil n)
  | cons c l =>
    exact ⟨c, l, rfl, natChars_digits n c (by rw [hn]; exact List.mem_cons_self _ _)⟩

theorem jfuel_pos (v : Json) : 1 ≤ jfuel v := by
  cases v <;> simp [jfuel]

theorem renderVal_head (v : Json) :
    ∃ c l, renderVal v = c :: l ∧ isWs c = false ∧ c ≠ ']' ∧ c ≠ rbrace ∧ c ≠ ',' := by
  cases v with
  | null => exact ⟨'n', _, rfl, by decide, by decide, by decide, by decide⟩
  | bool b =>
    cases b with
    | true => exact ⟨'t', _, rfl, by decide, by decide, by decide, by decide⟩
    | false => exact ⟨'f', _, rfl, by decide, by decide, by decide, by decide⟩
  | num n =>
    obtain ⟨c, l, hcl, hdig⟩ := natChars_cons n
    obtain ⟨h1, h2, h3, h4, _⟩ := isDig_not_special hdig
    exact ⟨c, l, hcl, h1, h2, h3, h4⟩
  | str s => exact ⟨'"', _, rfl, by decide, by decide, by decide, by decide⟩
  | arr items => exact ⟨'[', _, rfl, by decide, by decide, by decide, by decide⟩
  | obj fields => exact ⟨lbrace, _, rfl, by decide, by decide, by decide, by decide⟩

theorem renderItems_cons (x : Json) (xs : List Json) :
    ∃ l, renderItems (x :: xs) = renderVal x ++ l := by
  cases xs with
  | nil => exact ⟨[], by simp [renderItems]⟩
  | cons y ys => exact ⟨',' :: renderItems (y :: ys), rfl⟩

theorem string_mk_data (s : String) : String.mk s.data = s := rfl

theorem skipWs_rsq (l : List Char) : skipWs (']' :: l) = ']' :: l :=
  skipWs_cons_of_not_ws _ (by decide)

theorem skipWs_rb (l : List Char) : skipWs (rbrace :: l) = rbrace :: l :=
  skipWs_cons_of_not_ws _ (by decide)

theorem skipWs_comma (l : List Char) : skipWs (',' :: l) = ',' :: l :=
  skipWs_cons_of_not_ws _ (by decide)

theorem skipWs_colon (l : List Char) : skipWs (':' :: l) = ':' :: l :=
  skipWs_cons_of_not_ws _ (by decide)

theorem skipWs_quote (l : List Char) : skipWs ('"' :: l) = '"' :: l :=
  skipWs_cons_of_not_ws _ (by decide)

theorem renderFields_cons (k : String) (v : Json) (kvs : List (String × Json)) :
    ∃ l, renderFields ((k, v) :: kvs) = '"' :: l := by
  cases kvs with
  | nil =>
    refine ⟨(escapeChars k.data ++ ['"']) ++ ':' :: renderVal v, ?_⟩
    simp [renderFields, renderStrChars]
  | cons kw kws =>
    refine ⟨(escapeChars k.data ++ ['"']) ++ ':' :: renderVal v ++ ',' :: renderFields (kw :: kws), ?_⟩
    simp [renderFields, renderStrChars]

theorem parse_render_mutual : ∀ fuel : Nat,
    (∀ v rest, jfuel v ≤ fuel → headNotDig rest →
      parseVal fuel (renderVal v ++ rest) = some (v, rest)) ∧
    (∀ vs rest, vs ≠ [] → jfuelItems vs ≤ fuel →
      parseItems fuel (renderItems vs ++ ']' :: rest) = some (vs, rest)) ∧
    (∀ kvs rest, kvs ≠ [] → jfuelFields kvs ≤ fuel →
      parseFields fuel (renderFields kvs ++ rbrace :: rest) = some (kvs, rest)) := by
  intro fuel
  induction fuel with
  | zero =>
    refine ⟨?_, ?_, ?_⟩
    · intro v rest hf _
      exact absurd hf (by have := jfuel_pos v; omega)
    · intro vs rest hne hf
      cases vs with
      | nil => exact absurd rfl hne
      | cons v vs =>
        have := jfuel_pos v
        simp only [jfuelItems] at hf
        omega
    · intro kvs rest hne hf
      cases kvs with
      | nil => exact absurd rfl hne
      | cons kv kvs =>
        obtain ⟨k, v⟩ := kv
        have := jfuel_pos v
        simp only [jfuelFields] at hf
        omega
  | succ f ih =>
    obtain ⟨ihP, ihQ, ihR⟩ := ih
    refine ⟨?_, ?_, ?_⟩
    · intro v rest hf hrest
      cases v with
      | null =>
        show parseVal (f + 1) ('n' :: 'u' :: 'l' :: 'l' :: rest) = some (Json.null, rest)
        unfold parseVal
        rw [skipWs_cons_of_not_ws _ (by decide)]
        simp +decide [List.take, List.drop]
      | bool b =>
        cases b with
        | true =>
          show parseVal (f + 1) ('t' :: 'r' :: 'u' :: 'e' :: rest) = some (Json.bool true, rest)
          unfold parseVal
          rw [skipWs_cons_of_not_ws _ (by decide)]
          simp +decide [List.take, List.drop]
        | false =>
          show parseVal (f + 1) ('f' :: 'a' :: 'l' :: 's' :: 'e' :: rest) =
            some (Json.bool false, rest)
          unfold parseVal
          rw [skipWs_cons_of_not_ws _ (by decide)]
          simp +decide [List.take, List.drop]
      | num n =>
        show parseVal (f + 1) (natChars n ++ rest) = some (Json.num n, rest)
        obtain ⟨c, l, hcl, hdig⟩ := natChars_cons n
        have htd := takeWhile_digits_append (natChars_digits n) hrest
        have h1 : List.takeWhile isDig (c :: (l ++ rest)) = natChars n := by
          rw [← List.cons_append, ← hcl]; exact htd.1
        have h2 : List.dropWhile isDig (c :: (l ++ rest)) = rest := by
          rw [← List.cons_append, ← hcl]; exact htd.2
        unfold parseVal
        rw [hcl, List.cons_append, skipWs_cons_of_not_ws _ (isDig_not_special hdig).1]
        simp [hdig, h1, h2, digitsToNat_natChars]
      | str s =>
        show parseVal (f + 1) (('"' :: (escapeChars s.data ++ ['"'])) ++ rest) =
          some (Json.str s, rest)
        unfold parseVal
        rw [List.cons_append, skipWs_quote]
        rw [List.append_assoc, List.singleton_append]
        simp +decide [parseStrBody_escape]
      | arr items =>
        show parseVal (f + 1) (('[' :: (renderItems items ++ [']'])) ++ rest) =
          some (Json.arr items, rest)
        cases items with
        | nil =>
          unfold parseVal
          rw [List.cons_append, skipWs_cons_of_not_ws _ (by decide)]
          simp +decide [renderItems, skipWs_rsq]
        | cons x xs =>
          have hq : parseItems f (renderItems (x :: xs) ++ ']' :: rest) =
              some (x :: xs, rest) := by
            apply ihQ _ _ (by simp)
            simp only [jfuel] at hf
            omega
          obtain ⟨t, ht⟩ := renderItems_cons x xs
          obtain ⟨c, u, hcu, hws, hrb, _, _⟩ := renderVal_head x
          have hshape : renderItems (x :: xs) ++ ']' :: rest = c :: (u ++ (t ++ ']' :: rest)) := by
            rw [ht, hcu]
            simp [List.append_assoc]
          unfold parseVal
          rw [List.cons_append, skipWs_cons_of_not_ws _ (by decide),
            List.append_assoc, List.singleton_append]
          rw [hshape] at hq ⊢
          simp +decide [skipWs_cons_of_not_ws _ hws, hrb, hq]
      | obj fields =>
        show parseVal (f + 1) ((lbrace :: (renderFields fields ++ [rbrace])) ++ rest) =
          some (Json.obj fields, rest)
        cases fields with
        | nil =>
          unfold parseVal
          rw [List.cons_append, skipWs_cons_of_not_ws _ (by decide)]
          simp +decide [renderFields, skipWs_rb]
        | cons kv kvs =>
          obtain ⟨k, v⟩ := kv
          have hr : parseFields f (renderFields ((k, v) :: kvs) ++ rbrace :: rest) =
              some ((k, v) :: kvs, rest) := by
            apply ihR _ _ (by simp)
            simp only [jfuel] at hf
            omega
          obtain ⟨l0, hl0⟩ := renderFields_cons k v kvs
          unfold parseVal
          rw [List.cons_append, skipWs_cons_of_not_ws _ (by decide),
            List.append_assoc, List.singleton_append]
          rw [hl0, List.cons_append] at hr ⊢
          simp +decide [skipWs_quote, hr]
    · intro vs rest hne hf
      cases vs with
      | nil => exact absurd rfl hne
      | cons v vs =>
        simp only [jfuelItems] at hf
        cases vs with
        | nil =>
          show parseItems (f + 1) (renderVal v ++ ']' :: rest) = some ([v], rest)
          have hpv := ihP v (']' :: rest) (by omega) (by show isDig ']' = false; decide)
          unfold parseItems
          rw [hpv]
          simp +decide [skipWs_rsq]
        | cons w ws =>
          show parseItems (f + 1)
            ((renderVal v ++ ',' :: renderItems (w :: ws)) ++ ']' :: rest) =
            some (v :: w :: ws, rest)
          have hq : parseItems f (renderItems (w :: ws) ++ ']' :: rest) =
              some (w :: ws, rest) := by
            apply ihQ _ _ (by simp)
            simp only [jfuelItems] at hf ⊢
            omega
          have hpv := ihP v (',' :: (renderItems (w :: ws) ++ ']' :: rest)) (by omega)
            (by show isDig ',' = false; decide)
          rw [List.append_assoc, List.cons_append]
          unfold parseItems
          rw [hpv]
          simp +decide [skipWs_comma, hq]
    · intro kvs rest hne hf
      cases kvs with
      | nil => exact absurd rfl hne
      | cons kv kvs =>
        obtain ⟨k, v⟩ := kv
        simp only [jfuelFields] at hf
        cases kvs with
        | nil =>
          show parseFields (f + 1)
            ((renderStrChars k ++ ':' :: renderVal v) ++ rbrace :: rest) =
            some ([(k, v)], rest)
          have hpv := ihP v (rbrace :: rest) (by omega)
            (by show isDig rbrace = false; decide)
          rw [show renderStrChars k = '"' :: (escapeChars k.data ++ ['"']) from rfl]
          rw [List.append_assoc, List.cons_append]
          unfold parseFields
          rw [skipWs_quote]
          simp +decide [List.append_assoc, parseStrBody_escape, skipWs_colon, skipWs_rb,
            hpv, string_mk_data]
        | cons kw kws =>
          show parseFields (f + 1)
            ((renderStrChars k ++ ':' :: renderVal v ++ ',' :: renderFields (kw :: kws)) ++
              rbrace :: rest) = some ((k, v) :: kw :: kws, rest)
          have hr : parseFields f (renderFields (kw :: kws) ++ rbrace :: rest) =
              some (kw :: kws, rest) := by
            apply ihR _ _ (by simp)
            simp only [jfuelFields] at hf ⊢
            omega
          have hpv := ihP v (',' :: (renderFields (kw :: kws) ++ rbrace :: rest)) (by omega)
            (by show isDig ',' = false; decide)
          rw [show renderStrChars k = '"' :: (escapeChars k.data ++ ['"']) from rfl]
          simp only [List.append_assoc, List.cons_append]
          unfold parseFields
          rw [skipWs_quote]
          simp +decide [List.append_assoc, parseStrBody_escape, skipWs_colon, skipWs_comma,
            skipWs_rb, hpv, hr, string_mk_data]

theorem jfuel_le_render : ∀ n : Nat,
    (∀ v, jfuel v ≤ n → jfuel v ≤ (renderVal v).length) ∧
    (∀ vs, vs ≠ [] → jfuelItems vs ≤ n → jfuelItems vs ≤ (renderItems vs).length + 1) ∧
    (∀ kvs, kvs ≠ [] → jfuelFields kvs ≤ n → jfuelFields kvs ≤ (renderFields kvs).length + 1) := by
  intro n
  induction n with
  | zero =>
    refine ⟨?_, ?_, ?_⟩
    · intro v hf
      exact absurd hf (by have := jfuel_pos v; omega)
    · intro vs hne hf
      cases vs with
      | nil => exact absurd rfl hne
      | cons v vs =>
        have := jfuel_pos v
        simp only [jfuelItems] at hf
        omega
    · intro kvs hne hf
      cases kvs with
      | nil => exact absurd rfl hne
      | cons kv kvs =>
        obtain ⟨k, v⟩ := kv
        have := jfuel_pos v
        simp only [jfuelFields] at hf
        omega
  | succ m ih =>
    obtain ⟨ihP, ihQ, ihR⟩ := ih
    refine ⟨?_, ?_, ?_⟩
    · intro v hf
      cases v with
      | null => simp [jfuel, renderVal]
      | bool b => cases b <;> simp [jfuel, renderVal]
      | num n0 =>
        have := List.length_pos.2 (natChars_ne_nil n0)
        simp only [jfuel, renderVal]
        omega
      | str s => simp [jfuel, renderVal, renderStrChars]
      | arr items =>
        cases items with
        | nil => simp [jfuel, jfuelItems, renderVal, renderItems]
        | cons x xs =>
          simp only [jfuel] at hf ⊢
          have hq := ihQ (x :: xs) (by simp) (by omega)
          simp only [renderVal, List.length_cons, List.length_append]
          omega
      | obj fields =>
        cases fields with
        | nil =>
          show jfuel (Json.obj []) ≤ (lbrace :: (renderFields [] ++ [rbrace])).length
          simp [jfuel, jfuelFields, renderFields]
        | cons kv kvs =>
          simp only [jfuel] at hf ⊢
          have hr := ihR (kv :: kvs) (by simp) (by omega)
          simp only [renderVal, List.length_cons, List.length_append]
          omega
    · intro vs hne hf
      cases vs with
      | nil => exact absurd rfl hne
      | cons v vs =>
        simp only [jfuelItems] at hf ⊢
        have hv := jfuel_pos v
        cases vs with
        | nil =>
          have hp := ihP v (by omega)
          simp only [renderItems, jfuelItems]
          omega
        | cons w ws =>
          have hp := ihP v (by omega)
          have hq := ihQ (w :: ws) (by simp) (by simp only [jfuelItems] at hf ⊢; omega)
          simp only [renderItems, List.length_append, List.length_cons]
          omega
    · intro kvs hne hf
      cases kvs with
      | nil => exact absurd rfl hne
      | cons kv kvs =>
        obtain ⟨k, v⟩ := kv
        simp only [jfuelFields] at hf ⊢
        have hv := jfuel_pos v
        cases kvs with
        | nil =>
          have hp := ihP v (by omega)
          simp only [renderFields, jfuelFields, List.length_append, List.length_cons]
          omega
        | cons kw kws =>
          have hp := ihP v (by omega)
          have hr := ihR (kw :: kws) (by simp) (by simp only [jfuelFields] at hf ⊢; omega)
          simp only [renderFields, List.length_append, List.length_cons]
          omega

theorem Json.parse_render (v : Json) : Json.parse (String.mk (renderVal v)) = some v := by
  have hb := (jfuel_le_render (jfuel v)).1 v le_rfl
  have hP := (parse_render_mutual ((renderVal v).length + 1)).1 v [] (by omega) trivial
  rw [List.append_nil] at hP
  unfold Json.parse
  rw [show (String.mk (renderVal v)).length = (renderVal v).length from rfl]
  rw [show (String.mk (renderVal v)).data = renderVal v from rfl]
  rw [hP]
  simp [skipWs]

theorem jStrD_str (s d : String) : jStrD (Json.str s) d = s := rfl

theorem jNatD_num (n d : Nat) : jNatD (Json.num n) d = n := rfl

theorem map_jStrD_comp (ts : List String) :
    ts.map ((fun t => jStrD t "") ∘ Json.str) = ts := by
  induction ts with
  | nil => rfl
  | cons t ts ih => simp only [List.map_cons, Function.comp_apply, ih, jStrD_str]

theorem entry_roundtrip (m : HFModel) (hid : m.id ≠ "") (hname : m.name ≠ "") :
    entryToModel (hfModelToJson m) = some m := by
  obtain ⟨i, n, au, de, dl, lk, tg, sz⟩ := m
  simp only at hid hname
  cases sz with
  | none =>
    simp +decide [entryToModel, hfModelToJson, jGet, jStrD_str, jNatD_num, hid, hname,
      map_jStrD_comp, List.find?]
  | some s =>
    simp +decide [entryToModel, hfModelToJson, jGet, jStrD_str, jNatD_num, hid, hname,
      map_jStrD_comp, List.find?]

theorem filterMap_entry_models (ms : List HFModel)
    (h : ∀ m ∈ ms, m.id ≠ "" ∧ m.name ≠ "") :
    (ms.map hfModelToJson).filterMap entryToModel = ms := by
  induction ms with
  | nil => rfl
  | cons m ms ih =>
    have hm := h m (List.mem_cons_self _ _)
    rw [List.map_cons, List.filterMap_cons, entry_roundtrip m hm.1 hm.2]
    rw [ih (fun x hx => h x (List.mem_cons_of_mem _ hx))]

theorem parse_renderModels (ms : List HFModel) :
    Json.parse (renderModels ms) = some (Json.arr (ms.map hfModelToJson)) :=
  Json.parse_render (Json.arr (ms.map hfModelToJson))

theorem parse_renderPModels (ms : List PModel) :
    Json.parse (renderPModels ms) = some (pModelsToJson ms) :=
  Json.parse_render (pModelsToJson ms)

theorem hfLoad_render (fs : FS) (ms : List HFModel)
    (h : ∀ m ∈ ms, m.id ≠ "" ∧ m.name ≠ "") :
    load_huggingface_models_from_cache { fs with hfCache := some (renderModels ms) } = ms := by
  unfold load_huggingface_models_from_cache
  simp only [parse_renderModels]
  exact filterMap_entry_models ms h

theorem pLoad_render (fs : FS) (ms : List PModel) :
    load_models_from_json { fs with modelsJson := some (renderPModels ms) } = pModelsToJson ms := by
  unfold load_models_from_json
  simp only [parse_renderPModels]

theorem fetch_from_web_true_ne_nil (limit : Nat) (w : Except String (List CardOutcome))
    (h : (fetch_from_web limit w).1 = true) : (fetch_from_web limit w).2.2 ≠ [] := by
  cases w with
  | error e => simp [fetch_from_web] at h
  | ok cards =>
    simp only [fetch_from_web] at h ⊢
    by_cases he : ((cards.take limit).filterMap cardModel).isEmpty
    · rw [if_pos he] at h
      simp at h
    · rw [if_neg he] at h ⊢
      simpa [List.isEmpty_iff] using he

theorem hfSelected_nil_false (limit : Nat) (a : Except String (List RawApiModel))
    (w : Except String (List CardOutcome))
    (h : (hfSelected limit a w).2.2 = []) : (hfSelected limit a w).1 = false := by
  unfold hfSelected at h ⊢
  by_cases hc : !(fetch_from_api a).1 || (fetch_from_api a).2.2.isEmpty
  · rw [if_pos hc] at h ⊢
    by_contra hne
    rw [Bool.not_eq_false] at hne
    exact fetch_from_web_true_ne_nil limit w hne h
  · rw [if_neg hc] at h ⊢
    rw [Bool.or_eq_true, Bool.not_eq_true'] at hc
    push_neg at hc
    exact absurd (List.isEmpty_iff.2 h) (by simpa using hc.2)

theorem isInfixOfChars_iff (n h : List Char) : isInfixOfChars n h = true ↔ n <:+: h := by
  induction h with
  | nil =>
    simp only [isInfixOfChars, List.isEmpty_iff, List.infix_nil]
  | cons c rest ih =>
    simp only [isInfixOfChars, Bool.or_eq_true, List.isPrefixOf_iff_prefix, ih,
      List.infix_cons_iff]

/-- **C5.** Refreshing one source never alters another source's cache
file: the Ollama updaters (`update_models_from_ollama`,
`update_ollama_models_cache`) leave the Hugging Face cache byte-for-byte
unchanged, and `update_huggingface_models_cache` leaves both Ollama-side
caches unchanged, whatever the fetch outcome and prior state. -/
theorem C5_source_isolation (resp : Except String (List H2Block))
    (s : Except String (List Json)) (limit : Nat)
    (a : Except String (List RawApiModel)) (w : Except String (List CardOutcome))
    (fs : FS) :
    (update_models_from_ollama resp fs).fs.hfCache = fs.hfCache ∧
    (update_models_from_ollama resp fs).fs.ollamaCache = fs.ollamaCache ∧
    (update_ollama_models_cache s fs).1.hfCache = fs.hfCache ∧
    (update_ollama_models_cache s fs).1.modelsJson = fs.modelsJson ∧
    (update_huggingface_models_cache limit a w fs).1.modelsJson = fs.modelsJson ∧
    (update_huggingface_models_cache limit a w fs).1.ollamaCache = fs.ollamaCache := by
  refine ⟨?_, ?_, ?_, ?_, ?_, ?_⟩
  · cases resp with
    | error e => rfl
    | ok h2s =>
      by_cases hb : (h2s.filterMap processH2).isEmpty <;>
        simp [update_models_from_ollama, hb, save_models_to_json, pyWriteText,
          writeDone, writeBegun, writeFile]
  · cases resp with
    | error e => rfl
    | ok h2s =>
      by_cases hb : (h2s.filterMap processH2).isEmpty <;>
        simp [update_models_from_ollama, hb, save_models_to_json, pyWriteText,
          writeDone, writeBegun, writeFile]
  · cases s with
    | error e => rfl
    | ok models => simp [update_ollama_models_cache, pyWriteText, writeDone, writeBegun, writeFile]
  · cases s with
    | error e => rfl
    | ok models => simp [update_ollama_models_cache, pyWriteText, writeDone, writeBegun, writeFile]
  · by_cases hr : (hfSelected limit a w).2.2.isEmpty <;>
      simp [update_huggingface_models_cache, hr, pyWriteText, writeDone, writeBegun, writeFile]
  · by_cases hr : (hfSelected limit a w).2.2.isEmpty <;>
      simp [update_huggingface_models_cache, hr, pyWriteText, writeDone, writeBegun, writeFile]

/-- **C9.** With a fixed upstream response, running any of the three
cache updates a second time leaves exactly the bytes the first run left:
which branch runs and what is written depend only on the response, never
on the previous file contents. -/
theorem C9_refresh_idempotent (limit : Nat) (a : Except String (List RawApiModel))
    (w : Except String (List CardOutcome)) (resp : Except String (List H2Block))
    (s : Except String (List Json)) (fs : FS) :
    (update_huggingface_models_cache limit a w
        (update_huggingface_models_cache limit a w fs).1).1.hfCache =
      (update_huggingface_models_cache limit a w fs).1.hfCache ∧
    (update_models_from_ollama resp (update_models_from_ollama resp fs).fs).fs.modelsJson =
      (update_models_from_ollama resp fs).fs.modelsJson ∧
    (update_ollama_models_cache s (update_ollama_models_cache s fs).1).1.ollamaCache =
      (update_ollama_models_cache s fs).1.ollamaCache := by
  refine ⟨?_, ?_, ?_⟩
  · by_cases hr : (hfSelected limit a w).2.2.isEmpty <;>
      simp [update_huggingface_models_cache, hr, pyWriteText, writeDone, writeBegun, writeFile]
  · cases resp with
    | error e => rfl
    | ok h2s =>
      by_cases hb : (h2s.filterMap processH2).isEmpty <;>
        simp [update_models_from_ollama, hb, save_models_to_json, pyWriteText,
          writeDone, writeBegun, writeFile]
  · cases s with
    | error e => rfl
    | ok models => simp [update_ollama_models_cache, pyWriteText, writeDone, writeBegun, writeFile]

/-- **C6.** The filter block of `search_huggingface_models` keeps
exactly the records in which the query occurs case-insensitively in the
id, the display name, the description, or a tag — and drops every
other record. -/
theorem C6_filter_correct (q : String) (ms : List HFModel) (m : HFModel) :
    m ∈ filterModels q ms ↔
      m ∈ ms ∧ (occursCI q m.id ∨ occursCI q m.name ∨ occursCI q m.description ∨
        ∃ t ∈ m.tags, occursCI q t) := by
  simp only [filterModels, List.mem_filter, hfModelMatches, Bool.or_eq_true, pyIn,
    isInfixOfChars_iff, List.any_eq_true, occursCI]
  tauto

/-- **C10.** When an exception escapes the `try` body of
`search_huggingface_models`, the handler returns exactly the built-in
default models whose name or description contains the query
case-insensitively (all of them when the query is `None` or empty), and
this fallback is independent of the `limit` argument — it is never
truncated. -/
theorem C10_fallback (defaults : List HFModel) (a : Except String (List RawApiModel))
    (w : Except String (List CardOutcome)) (query : Option String)
    (limit : Nat) (fs : FS) (m : HFModel) :
    (m ∈ search_huggingface_models defaults true a w query limit fs ↔
      m ∈ defaults ∧ (pyTruthy query = false ∨ occursCI (query.getD "") m.name ∨
        occursCI (query.getD "") m.description)) ∧
    search_huggingface_models defaults true a w none limit fs = defaults ∧
    search_huggingface_models defaults true a w query limit fs =
      search_huggingface_models defaults true a w query 0 fs := by
  refine ⟨?_, ?_, rfl⟩
  · show m ∈ searchFallback defaults query ↔ _
    simp only [searchFallback, List.mem_filter, Bool.or_eq_true, pyIn,
      isInfixOfChars_iff, occursCI, Bool.not_eq_true']
    tauto
  · show searchFallback defaults none = defaults
    simp [searchFallback, pyTruthy]

set_option maxRecDepth 40000 in
/-- **C7 counterexample.** With the remote fetch down and the cache
holding `zeta` before `alpha`, the list operation returns the records
in cache order — `zeta` first — so its output is not ordered by
`display_name` ascending (with ties broken by `id`), contradicting the
claim. -/
theorem C7_counterexample :
    search_huggingface_models [] false failApi failWeb none 20 fsZA = [zetaM, alphaM] ∧
    ¬ displayOrdered (search_huggingface_models [] false failApi failWeb none 20 fsZA) := by
  constructor
  · decide
  · decide

/-- **C7 amended.** The list operation performs no sorting at all: its
result is an order-preserving subsequence (filtering by the query and
truncating to the limit) of the loaded catalog, so records stay in
cache order rather than `display_name` order. -/
theorem C7_amended (defaults : List HFModel) (a : Except String (List RawApiModel))
    (w : Except String (List CardOutcome)) (query : Option String)
    (limit : Nat) (fs : FS) :
    (search_huggingface_models defaults false a w query limit fs).Sublist
      (searchLoaded defaults a w fs) := by
  show ((if pyTruthy query then
      filterModels (query.getD "") (searchLoaded defaults a w fs)
    else searchLoaded defaults a w fs).take limit).Sublist (searchLoaded defaults a w fs)
  by_cases hq : pyTruthy query
  · rw [if_pos hq]
    exact (List.take_sublist _ _).trans (List.filter_sublist _)
  · rw [if_neg hq]
    exact List.take_sublist _ _

set_option maxRecDepth 40000 in
/-- **C1 counterexample.** `update_models_from_ollama` returns `None`
on every path: a failed fetch and a successful refresh produce exactly
the same returned result, so the failure is *not* surfaced to the
caller in the returned result — it is only printed.  The same concrete
states show the cache untouched on failure and rewritten on success. -/
theorem C1_counterexample :
    (update_models_from_ollama errH2 fsP0).ret = (update_models_from_ollama okH2 fsP0).ret ∧
    (update_models_from_ollama errH2 fsP0).fs = fsP0 ∧
    (update_models_from_ollama okH2 fsP0).fs.modelsJson ≠ fsP0.modelsJson ∧
    (update_models_from_ollama errH2 fsP0).printed =
      ["Error updating from ollama.com: boom"] := by
  refine ⟨rfl, rfl, ?_, rfl⟩
  decide

/-- **C1 amended.** On a failed or empty fetch each updater leaves its
cache file byte-for-byte unchanged, and the cache is (re)written only
when the fetch produced a non-empty batch; the Hugging Face updater
surfaces the failure in its returned `(success, message)` pair, while
`update_models_from_ollama` returns `None` in every case and reports
failure only through a printed message (and the scraper cache updater
returns `False`). -/
theorem C1_amended (limit : Nat) (a : Except String (List RawApiModel))
    (w : Except String (List CardOutcome)) (fs : FS)
    (h2s : List H2Block) (e : String) :
    ((hfSelected limit a w).2.2 = [] →
      (update_huggingface_models_cache limit a w fs).1 = fs ∧
      (update_huggingface_models_cache limit a w fs).2.1 = false) ∧
    ((update_huggingface_models_cache limit a w fs).1.hfCache ≠ fs.hfCache →
      (update_huggingface_models_cache limit a w fs).2.1 = true ∧
      (hfSelected limit a w).2.2 ≠ [] ∧
      (update_huggingface_models_cache limit a w fs).1.hfCache =
        some (renderModels (hfSelected limit a w).2.2)) ∧
    (update_models_from_ollama (Except.error e) fs =
      ⟨fs, (), ["Error updating from ollama.com: " ++ e]⟩) ∧
    (h2s.filterMap processH2 = [] →
      update_models_from_ollama (Except.ok h2s) fs =
        ⟨fs, (), ["No models found to update."]⟩) ∧
    ((update_models_from_ollama (Except.ok h2s) fs).fs.modelsJson ≠ fs.modelsJson →
      h2s.filterMap processH2 ≠ [] ∧
      (update_models_from_ollama (Except.ok h2s) fs).fs.modelsJson =
        some (renderPModels (ollamaModelsList h2s))) ∧
    (update_ollama_models_cache (Except.error e) fs = (fs, false)) := by
  refine ⟨?_, ?_, rfl, ?_, ?_, rfl⟩
  · intro h
    have hf := hfSelected_nil_false limit a w h
    constructor <;> simp [update_huggingface_models_cache, h, hf]
  · intro hne
    by_cases he : (hfSelected limit a w).2.2.isEmpty
    · exact absurd (by simp [update_huggingface_models_cache, he]) hne
    · refine ⟨?_, by simpa [List.isEmpty_iff] using he, ?_⟩ <;>
        simp [update_huggingface_models_cache, he, pyWriteText, writeDone, writeBegun,
          writeFile]
  · intro h
    simp [update_models_from_ollama, h]
  · intro hne
    by_cases hb : (h2s.filterMap processH2).isEmpty
    · exact absurd (by simp [update_models_from_ollama, hb]) hne
    · refine ⟨by simpa [List.isEmpty_iff] using hb, ?_⟩
      simp [update_models_from_ollama, hb, save_models_to_json, pyWriteText,
        writeDone, writeBegun, writeFile]

/-- Closed instance of `C1_amended`: a concrete failing API and web
fetch leave the (empty) state unchanged with `success = False`, and a
page with no coding model block leaves `models.json` unwritten. -/
theorem C1_amended_witness :
    (update_huggingface_models_cache 50 failApi failWeb emptyFS).1 = emptyFS ∧
    (update_huggingface_models_cache 50 failApi failWeb emptyFS).2.1 = false ∧
    update_models_from_ollama (Except.ok [⟨"nothing here", none⟩]) emptyFS =
      ⟨emptyFS, (), ["No models found to update."]⟩ := by
  have h := C1_amended 50 failApi failWeb emptyFS [⟨"nothing here", none⟩] "boom"
  exact ⟨(h.1 (by decide)).1, (h.1 (by decide)).2, h.2.2.2.1 (by decide)⟩

/-- **C2.** A refresh that fetched a non-empty batch replaces the
source's cache file wholesale: what `load` afterwards returns is
exactly the fetched batch — records absent from the batch are gone,
records in it are stored with their new field values — whatever the
cache held before.  The same holds for pyllm's `models.json`. -/
theorem C2_scoped_replace :
    (∀ (limit : Nat) (a : Except String (List RawApiModel))
      (w : Except String (List CardOutcome)) (fs : FS),
      (hfSelected limit a w).2.2 ≠ [] →
      (∀ m ∈ (hfSelected limit a w).2.2, m.id ≠ "" ∧ m.name ≠ "") →
      load_huggingface_models_from_cache (update_huggingface_models_cache limit a w fs).1 =
        (hfSelected limit a w).2.2) ∧
    (∀ (h2s : List H2Block) (fs : FS),
      h2s.filterMap processH2 ≠ [] →
      load_models_from_json (update_models_from_ollama (Except.ok h2s) fs).fs =
        pModelsToJson (ollamaModelsList h2s)) := by
  constructor
  · intro limit a w fs hne hwf
    have he : (hfSelected limit a w).2.2.isEmpty = false := by
      simpa [List.isEmpty_iff] using hne
    have hfs : (update_huggingface_models_cache limit a w fs).1 =
        { fs with hfCache := some (renderModels (hfSelected limit a w).2.2) } := by
      simp [update_huggingface_models_cache, he, pyWriteText, writeDone, writeBegun,
        writeFile]
    rw [hfs]
    exact hfLoad_render fs _ hwf
  · intro h2s fs hb
    have he : (h2s.filterMap processH2).isEmpty = false := by
      simpa [List.isEmpty_iff] using hb
    have hfs : (update_models_from_ollama (Except.ok h2s) fs).fs =
        { fs with modelsJson := some (renderPModels (ollamaModelsList h2s)) } := by
      simp [update_models_from_ollama, he, save_models_to_json, pyWriteText,
        writeDone, writeBegun, writeFile]
    rw [hfs]
    exact pLoad_render fs _

set_option maxRecDepth 100000 in
/-- Closed instance of `C2_scoped_replace`: starting from `{A, B}` and
refreshing with the batch `{B', C}`, the persisted catalog is exactly
`[B', C]` — `A` is gone, `B` was replaced, `C` was added. -/
theorem C2_scoped_replace_witness :
    load_huggingface_models_from_cache
        (update_huggingface_models_cache 50 okApiBC failWeb fsAB).1 =
      (hfSelected 50 okApiBC failWeb).2.2 ∧
    (hfSelected 50 okApiBC failWeb).2.2 =
      [⟨"s/b", "b", "au2", "v2prime", 7, 0, ["gguf"], none⟩,
       ⟨"s/c", "c", "au3", "v3", 2, 0, ["gguf"], none⟩] ∧
    mA ∉ load_huggingface_models_from_cache
        (update_huggingface_models_cache 50 okApiBC failWeb fsAB).1 := by
  refine ⟨C2_scoped_replace.1 50 okApiBC failWeb fsAB (by decide) (by decide),
    by decide, by decide⟩

set_option maxRecDepth 40000 in
/-- **C3 counterexample.** The save paths write in place — `open(path,
"w")` truncates the cache file and the data is written afterwards, with
no temporary file and no rename.  A crash between the truncation and
the write (`writeBegun`) therefore destroys the previously persisted
catalog: the next `load` returns the built-in defaults instead of the
catalog that was on disk, contradicting the claimed
write-to-temp-then-rename atomicity. -/
theorem C3_counterexample :
    load_models_from_json fsPX = pModelsToJson [pmX] ∧
    load_models_from_json (writeBegun CacheFile.pyllmModels fsPX) = defaultModelsJson ∧
    defaultModelsJson ≠ pModelsToJson [pmX] := by
  refine ⟨pLoad_render ⟨none, none, none⟩ [pmX], rfl, ?_⟩
  simp +decide [defaultModelsJson, pModelsToJson, DEFAULT_MODELS, pModelToJson, pmX]

/-- **C3 amended.** `save` writes the serialized catalog directly into
the cache file: it truncates, then writes, so only the completed write
leaves the serialized catalog (which the next `load` returns), while
the intermediate (crash-observable) state is an empty file, from which
`load` returns the defaults (pyllm) or the empty catalog (Hugging
Face) rather than the previously persisted one. -/
theorem C3_amended (ms : List PModel) (fs : FS) :
    save_models_to_json ms fs =
      writeDone CacheFile.pyllmModels (renderPModels ms)
        (writeBegun CacheFile.pyllmModels fs) ∧
    (save_models_to_json ms fs).modelsJson = some (renderPModels ms) ∧
    load_models_from_json (save_models_to_json ms fs) = pModelsToJson ms ∧
    load_models_from_json (writeBegun CacheFile.pyllmModels fs) = defaultModelsJson ∧
    load_huggingface_models_from_cache (writeBegun CacheFile.hfModels fs) = [] := by
  refine ⟨rfl, rfl, ?_, rfl, rfl⟩
  exact pLoad_render fs ms

/-- **C4 counterexample.** With no cache file on disk,
`load_models_from_json` returns the built-in `DEFAULT_MODELS` catalog,
not an empty catalog, contradicting the claim that a missing cache
loads as the empty list. -/
theorem C4_counterexample :
    load_models_from_json emptyFS = defaultModelsJson ∧
    defaultModelsJson ≠ Json.arr [] := by
  refine ⟨rfl, ?_⟩
  simp +decide [defaultModelsJson, pModelsToJson, DEFAULT_MODELS]

/-- **C4 amended.** The Hugging Face loader returns the last
successfully persisted catalog and treats a missing, unparseable or
non-list cache as the empty list, never raising; pyllm's loader also
never raises and returns the last persisted document, but answers a
missing or unparseable `models.json` with the built-in `DEFAULT_MODELS`
catalog rather than an empty one. -/
theorem C4_amended (fs : FS) (s t : String) (j : Json) (ms : List HFModel)
    (pm : List PModel)
    (hs : Json.parse s = none)
    (ht : Json.parse t = some j) (hj : ∀ items, j ≠ Json.arr items)
    (hwf : ∀ m ∈ ms, m.id ≠ "" ∧ m.name ≠ "") :
    load_huggingface_models_from_cache { fs with hfCache := none } = [] ∧
    load_huggingface_models_from_cache { fs with hfCache := some s } = [] ∧
    load_huggingface_models_from_cache { fs with hfCache := some t } = [] ∧
    load_huggingface_models_from_cache { fs with hfCache := some (renderModels ms) } = ms ∧
    load_models_from_json { fs with modelsJson := none } = defaultModelsJson ∧
    load_models_from_json { fs with modelsJson := some s } = defaultModelsJson ∧
    load_models_from_json { fs with modelsJson := some (renderPModels pm) } =
      pModelsToJson pm := by
  refine ⟨rfl, ?_, ?_, hfLoad_render fs ms hwf, rfl, ?_, pLoad_render fs pm⟩
  · unfold load_huggingface_models_from_cache
    simp [hs]
  · unfold load_huggingface_models_from_cache
    rcases j with _ | b | n | s2 | items | kvs
    · simp [ht]
    · simp [ht]
    · simp [ht]
    · simp [ht]
    · exact absurd rfl (hj items)
    · simp [ht]
  · unfold load_models_from_json
    simp [hs]

/-- Closed instance of `C4_amended`: an unreadable cache (`"xyz"`), a
parseable non-list cache (`"5"`), a persisted concrete catalog and the
missing-file case, for both loaders. -/
theorem C4_amended_witness :
    load_huggingface_models_from_cache { emptyFS with hfCache := some "xyz" } = [] ∧
    load_huggingface_models_from_cache { emptyFS with hfCache := some "5" } = [] ∧
    load_huggingface_models_from_cache
        { emptyFS with hfCache := some (renderModels [zetaM]) } = [zetaM] ∧
    load_models_from_json { emptyFS with modelsJson := some "xyz" } = defaultModelsJson := by
  have h := C4_amended emptyFS "xyz" "5" (Json.num 5) [zetaM] [pmX] rfl rfl
    (by simp) (by decide)
  exact ⟨h.2.1, h.2.2.1, h.2.2.2.1, h.2.2.2.2.2.1⟩

theorem matchSizeHFAt_none {unit : Char} {l : List Char}
    (h : ∀ c ∈ l, isDig c = false) : matchSizeHFAt unit l = none := by
  cases l with
  | nil => rfl
  | cons c rest =>
    have hc := h c (List.mem_cons_self _ _)
    simp [matchSizeHFAt, takeDigs, List.takeWhile, hc]

theorem reSearchSize_none {unit : Char} {l : List Char}
    (h : ∀ c ∈ l, isDig c = false) : reSearchSize unit l = none := by
  induction l with
  | nil => rfl
  | cons c rest ih =>
    rw [reSearchSize, matchSizeHFAt_none h]
    exact ih (fun d hd => h d (List.mem_cons_of_mem _ hd))

theorem isInfixOfChars_digit_false {p h : List Char}
    (hp : ∃ c ∈ p, isDig c = true) (hh : ∀ c ∈ h, isDig c = false) :
    isInfixOfChars p h = false := by
  by_contra hcon
  rw [Bool.not_eq_false] at hcon
  obtain ⟨c, hcmem, hcdig⟩ := hp
  have hmem : c ∈ h := ((isInfixOfChars_iff p h).1 hcon).subset hcmem
  rw [hh c hmem] at hcdig
  exact Bool.false_ne_true hcdig

/-- **C8 counterexample.** `extract_model_size` never scans the
description: a record whose description plainly says `"a 7B model"`
(but whose name, tags and id carry no size) yields the synthesized
string `"Unknown"` — not the claimed `"7B"`, and not an absent value
either (the function always returns a string). -/
theorem C8_counterexample :
    extract_model_size mDescOnly = "Unknown" ∧
    mDescOnly.description = "a 7B model" ∧
    extract_model_size mDescOnly ≠ "7B" := by
  exact ⟨by decide, rfl, by decide⟩

/-- **C8 amended.** Size extraction scans only the lower-cased display
name (with the `<number>B` pattern before the `<number>M` pattern),
then a fixed token list against the tags, the name and the id; the
description (and any explicit size field) is never consulted, and when
nothing matches the result is the literal string `"Unknown"`, not an
absent value.  The spec's example still holds: a record named
`"CodeLlama-7b-Instruct"` yields `"7B"`. -/
theorem C8_amended :
    extract_model_size mCode = "7B" ∧
    (∀ (m : HFModel) (d : String),
      extract_model_size { m with description := d } = extract_model_size m) ∧
    (∀ m : HFModel,
      (∀ c ∈ (lowerStr m.name).data, isDig c = false) →
      (∀ t ∈ m.tags, ∀ c ∈ (lowerStr t).data, isDig c = false) →
      (∀ c ∈ (lowerStr m.id).data, isDig c = false) →
      extract_model_size m = "Unknown") := by
  refine ⟨by decide, ?_, ?_⟩
  · intro m d
    cases m
    rfl
  · intro m h1 h2 h3
    have hpat : ∀ p ∈ size_patterns, ∃ c ∈ p.data, isDig c = true := by decide
    have hfind1 : size_patterns.find? (fun p =>
        ((m.tags.filter (fun t => t ≠ "")).map (fun t => (lowerStr t).data)).any
          (fun t => isInfixOfChars p.data t) ||
        isInfixOfChars p.data (lowerStr m.name).data) = none := by
      rw [List.find?_eq_none]
      intro p hp
      simp [isInfixOfChars_digit_false (hpat p hp) h1]
      intro x hx _
      exact isInfixOfChars_digit_false (hpat p hp) (h2 x hx)
    have hfind2 : size_patterns.find? (fun p =>
        isInfixOfChars p.data (lowerStr m.id).data) = none := by
      rw [List.find?_eq_none]
      intro p hp
      simp [isInfixOfChars_digit_false (hpat p hp) h3]
    simp only [extract_model_size, reSearchSize_none h1, hfind1, hfind2]

/-- Closed instance of `C8_amended`: a record with no digits in its
name, tags or id yields the synthesized `"Unknown"`. -/
theorem C8_amended_witness : extract_model_size mNoSize = "Unknown" :=
  C8_amended.2.2 mNoSize (by decide) (by decide) (by decide)
